import Mathlib

/-
Shallow embedding of src/main.ts (contentful-clean-space).

The program drives a remote Contentful backend.  We model the backend as
explicit state (the list of entries of the environment, plus per-id
failure switches standing for the remote calls that may throw), and every
remote call or progress tick as an element of an event trace.  All
"parallel" work in the source is a set of awaited promises on a
single-threaded event loop; the embedding processes each page's items
sequentially in item order, one admissible interleaving.

The recursion in unpublishAndDeleteEntry has no cycle guard in the source
and the page loops are do/while loops that need not terminate, so both
take an explicit fuel argument; fuel 0 stands for the cut-off of a run
that the source would continue (or loop on) forever.
-/

namespace CleanSpace

/-- Publish state of an entry, as observed through the contentful SDK
predicates: `isPublished()` is true for any published entry and
`isUpdated()` only for a published entry changed since publication. -/
inductive PubState where
  | draft
  | publishedUnmodified
  | publishedModified
  deriving DecidableEq, Repr

/-- A reference held in a relation field (`series.sys.id` in the source). -/
structure Link where
  id : String
  deriving DecidableEq, Repr

/-- The two relation fields the source inspects (`entry.fields.seriesList`
and `entry.fields.episodeList`, each under the "en-GB" locale); `none`
models an absent field (the `if (entry.fields.seriesList)` guard). -/
structure EntryFields where
  seriesList : Option (List Link) := none
  episodeList : Option (List Link) := none
  deriving DecidableEq, Repr

/-- An entry (`Entry` of the SDK): id, content type id and publish state
(`entry.sys`), plus the two relation fields. -/
structure Entry where
  id : String
  contentTypeId : String := "ct"
  state : PubState := PubState.draft
  fields : EntryFields := {}
  deriving DecidableEq, Repr

/-- SDK `entry.isPublished()`: the entry has a published version. -/
def Entry.isPublished (e : Entry) : Bool :=
  e.state != PubState.draft

/-- SDK `entry.isUpdated()`: published and changed since publication. -/
def Entry.isUpdated (e : Entry) : Bool :=
  e.state == PubState.publishedModified

/-- One remote call or observable action of the program. -/
inductive Event where
  | countEntries                        : Event  -- getEntries with limit 0 (metadata)
  | pageEntries (skip limit : Nat)      : Event  -- getEntries page listing
  | visitEntry (id : String)            : Event  -- unpublishAndDeleteEntry invoked on the entry
  | getEntryOk (id : String)            : Event  -- getEntry(id) succeeded
  | getEntryFail (id : String)          : Event  -- getEntry(id) threw
  | deleteEntry (id : String)           : Event  -- entry.delete() call issued
  | unpublishEntry (id : String)        : Event  -- entry.unpublish() call issued
  | tickEntry                           : Event  -- entries progress bar tick
  | promptEntries (answer : Bool)       : Event  -- entries confirmation prompt, with reply
  | promptTypes (answer : Bool)         : Event  -- content-types confirmation prompt, with reply
  | countTypes (environment : String)   : Event  -- environment.getContentTypes limit 0
  | pageTypes (limit : Nat)             : Event  -- space.getContentTypes page listing
  | unpublishType (id : String)         : Event  -- contentType.unpublish() call issued
  | deleteType (id : String)            : Event  -- contentType.delete() call issued
  | tickType                            : Event  -- content types progress bar tick
  deriving DecidableEq, Repr

/-- State of the selected environment's entries.  `failGet i` makes
`getEntry i` throw, `failDelete i` makes `entry.delete()` throw for that
id: the per-id switches stand for remote errors. -/
structure Backend where
  entries : List Entry
  failGet : String → Bool := fun _ => false
  failDelete : String → Bool := fun _ => false

/-- Entries in scope of a listing: all of them, or those of one content
type when the `content_type` query parameter is set. -/
def Backend.scopedEntries (b : Backend) (ct : Option String) : List Entry :=
  match ct with
  | none => b.entries
  | some c => b.entries.filter (fun e => e.contentTypeId == c)

/-- `getEntries {skip, limit, content_type}`: the reported total and the
page of items. -/
def Backend.getEntriesPage (b : Backend) (ct : Option String) (skip limit : Nat) :
    Nat × List Entry :=
  ((b.scopedEntries ct).length, ((b.scopedEntries ct).drop skip).take limit)

/-- `environment.getEntry(id)`: `none` models the call throwing (remote
failure, or the entry no longer exists). -/
def Backend.getEntry (b : Backend) (i : String) : Option Entry :=
  if b.failGet i then none else b.entries.find? (fun e => e.id == i)

/-- Effect of a successful `entry.delete()` on the backend. -/
def Backend.removeEntry (b : Backend) (i : String) : Backend :=
  { b with entries := b.entries.filter (fun e => e.id != i) }

/-- The loop bodies at main.ts lines 152-171: for each link of one
relation field, `getEntry` the child inside a try/catch and recurse on it;
a failed fetch is logged and the remaining links are still processed.
`recv` is the recursive call (at one fuel less). -/
def processChildren (recv : Backend → Entry → List Event × Bool × Backend) :
    Backend → List Link → List Event × Backend
  | b, [] => ([], b)
  | b, l :: ls =>
    match b.getEntry l.id with
    | none =>
      let rest := processChildren recv b ls
      (Event.getEntryFail l.id :: rest.1, rest.2)
    | some child =>
      let r := recv b child
      let rest := processChildren recv r.2.2 ls
      (Event.getEntryOk l.id :: r.1 ++ rest.1, rest.2)

/-- main.ts lines 149-185, `unpublishAndDeleteEntry`.  Deletable test is
the source's `!entry.isPublished() && !entry.isUpdated()`.  When deletable:
recurse through `seriesList` then `episodeList`, issue the entry's own
delete, tick, return whether the delete succeeded (the catch block ticks
and returns false).  Otherwise: tick only and return false.  The leading
`visitEntry` event marks the invocation itself. -/
def unpublishAndDeleteEntry : Nat → Backend → Entry → List Event × Bool × Backend
  | 0, b, _ => ([], false, b)
  | fuel + 1, b, e =>
    if !e.isPublished && !e.isUpdated then
      let r1 := processChildren (unpublishAndDeleteEntry fuel) b (e.fields.seriesList.getD [])
      let r2 := processChildren (unpublishAndDeleteEntry fuel) r1.2 (e.fields.episodeList.getD [])
      let tr := Event.visitEntry e.id :: r1.1 ++ r2.1 ++
        [Event.deleteEntry e.id, Event.tickEntry]
      if r2.2.failDelete e.id then
        (tr, false, r2.2)
      else
        (tr, true, r2.2.removeEntry e.id)
    else
      ([Event.visitEntry e.id, Event.tickEntry], false, b)

/-- main.ts lines 139-144: run `unpublishAndDeleteEntry` on every item of
the (already filtered) page, collecting the boolean results.  (The source
awaits the promises together; the embedding serialises them in item
order.) -/
def processPage (entryFuel : Nat) : Backend → List Entry → List Event × List Bool × Backend
  | b, [] => ([], [], b)
  | b, e :: es =>
    let r := unpublishAndDeleteEntry entryFuel b e
    let rest := processPage entryFuel r.2.2 es
    (r.1 ++ rest.1, r.2.1 :: rest.2.1, rest.2.2)

/-- main.ts lines 130-146, the do/while page loop of `deleteEntries`:
fetch a page at `offset`, re-read the total, process the filtered items,
advance `offset` by `entries.limit` (the echoed request limit, i.e.
`batchSize`) minus the count of `true` results, and loop while the
reported total exceeds `batchSize`. -/
def deleteEntriesLoop (entryFuel : Nat) (ct : Option String) (batchSize : Nat)
    (filter : Entry → Bool) : Nat → Nat → Backend → List Event × Backend
  | 0, _, b => ([], b)
  | pageFuel + 1, offset, b =>
    let page := b.getEntriesPage ct offset batchSize
    let r := processPage entryFuel b (page.2.filter filter)
    let deleted := (r.2.1.filter (fun x => x)).length
    let newOffset := offset + batchSize - deleted
    if page.1 > batchSize then
      let rest := deleteEntriesLoop entryFuel ct batchSize filter pageFuel newOffset r.2.2
      (Event.pageEntries offset batchSize :: r.1 ++ rest.1, rest.2)
    else
      (Event.pageEntries offset batchSize :: r.1, r.2.2)

/-- main.ts lines 117-147, `deleteEntries`: metadata count (limit 0) to
size the progress bar, then the page loop starting at offset 0. -/
def deleteEntries (pageFuel entryFuel : Nat) (ct : Option String) (batchSize : Nat)
    (filter : Entry → Bool) (b : Backend) : List Event × Backend :=
  let r := deleteEntriesLoop entryFuel ct batchSize filter pageFuel 0 b
  (Event.countEntries :: r.1, r.2)

/-- A content type (`ContentType` of the SDK): id and whether it is
published (`contentType.isPublished()`). -/
structure ContentType where
  id : String
  published : Bool := false
  deriving DecidableEq, Repr

/-- State of the space's content types, per environment name, with per-id
failure switches for `unpublish()` and `delete()`. -/
structure SpaceState where
  envTypes : String → List ContentType
  failUnpublishType : String → Bool := fun _ => false
  failDeleteType : String → Bool := fun _ => false

/-- `space.getContentTypes {limit}` (main.ts line 199): the space-level
listing of the Contentful management API addresses the master environment
(requests without an environment id go to master); the source passes no
`skip`, so every call reads from the start. -/
def SpaceState.spacePage (s : SpaceState) (limit : Nat) : Nat × List ContentType :=
  ((s.envTypes "master").length, (s.envTypes "master").take limit)

/-- Effect of a successful `contentType.delete()`: the item came from the
space-level (master) listing, so it is removed there. -/
def SpaceState.removeType (s : SpaceState) (i : String) : SpaceState :=
  { s with envTypes := fun n =>
      if n == "master" then (s.envTypes n).filter (fun c => c.id != i) else s.envTypes n }

/-- Effect of a successful `contentType.unpublish()` on the master
environment's copy of the content type. -/
def SpaceState.unpublishTypeAt (s : SpaceState) (i : String) : SpaceState :=
  { s with envTypes := fun n =>
      if n == "master" then
        (s.envTypes n).map (fun c => if c.id == i then { c with published := false } else c)
      else s.envTypes n }

/-- main.ts lines 214-229, `unpublishAndDeleteContentType`: inside a
try/catch/finally, unpublish if published (may throw, which skips the
delete), then delete (may throw); the finally block always ticks. -/
def unpublishAndDeleteContentType (s : SpaceState) (ct : ContentType) :
    List Event × SpaceState :=
  if ct.published then
    if s.failUnpublishType ct.id then
      ([Event.unpublishType ct.id, Event.tickType], s)
    else
      let s1 := s.unpublishTypeAt ct.id
      if s1.failDeleteType ct.id then
        ([Event.unpublishType ct.id, Event.deleteType ct.id, Event.tickType], s1)
      else
        ([Event.unpublishType ct.id, Event.deleteType ct.id, Event.tickType],
         s1.removeType ct.id)
  else
    if s.failDeleteType ct.id then
      ([Event.deleteType ct.id, Event.tickType], s)
    else
      ([Event.deleteType ct.id, Event.tickType], s.removeType ct.id)

/-- main.ts lines 205-210: process every content type of the page. -/
def processTypePage : SpaceState → List ContentType → List Event × SpaceState
  | s, [] => ([], s)
  | s, ct :: cts =>
    let r := unpublishAndDeleteContentType s ct
    let rest := processTypePage r.2 cts
    (r.1 ++ rest.1, rest.2)

/-- main.ts lines 198-211, the do/while loop of `deleteContentTypes`:
fetch `batchSize` content types through the space-level listing (no
offset), process them all, loop while the reported total exceeds
`batchSize`. -/
def deleteTypesLoop (batchSize : Nat) : Nat → SpaceState → List Event × SpaceState
  | 0, s => ([], s)
  | pageFuel + 1, s =>
    let page := s.spacePage batchSize
    let r := processTypePage s page.2
    if page.1 > batchSize then
      let rest := deleteTypesLoop batchSize pageFuel r.2
      (Event.pageTypes batchSize :: r.1 ++ rest.1, rest.2)
    else
      (Event.pageTypes batchSize :: r.1, r.2)

/-- main.ts lines 187-212, `deleteContentTypes`: the metadata count (limit
0) is taken from the selected environment and only sizes the progress bar;
the loop itself pages through the space-level listing. -/
def deleteContentTypes (pageFuel batchSize : Nat) (environment : String)
    (s : SpaceState) : List Event × SpaceState :=
  let r := deleteTypesLoop batchSize pageFuel s
  (Event.countTypes environment :: r.1, r.2)

/-- main.ts lines 74-82: the filter built from the optional ignore list
and remove list (file contents already split into id lines).  The
if/else-if gives the ignore list precedence. -/
def mkFilter (ignoreIds removeIds : Option (List String)) : Entry → Bool :=
  match ignoreIds with
  | some list => fun e => !(list.any (fun i => i == e.id))
  | none =>
    match removeIds with
    | some list => fun e => list.any (fun i => i == e.id)
    | none => fun _ => true

/-- The command-line arguments of `main` that matter after parsing,
together with the answers the two confirmation prompts would return. -/
structure MainArgs where
  yes : Bool := false
  isContentTypes : Bool := false
  contentType : Option String := none
  batchSize : Nat := 5
  ignoreIds : Option (List String) := none
  removeIds : Option (List String) := none
  entriesAnswer : Bool := true
  typesAnswer : Bool := true

/-- main.ts lines 84-96, the part of `main` after client and filter
construction: ask the entries confirmation unless `--yes` and return if
declined; run `deleteEntries`; when `--content-types` is set, ask the
second confirmation unless `--yes` and return if declined; run
`deleteContentTypes`. -/
def mainRun (pageFuel entryFuel : Nat) (a : MainArgs) (environment : String)
    (b : Backend) (s : SpaceState) : List Event × Backend × SpaceState :=
  let filter := mkFilter a.ignoreIds a.removeIds
  if !a.yes && !a.entriesAnswer then
    ([Event.promptEntries false], b, s)
  else
    let pre : List Event := if a.yes then [] else [Event.promptEntries a.entriesAnswer]
    let r := deleteEntries pageFuel entryFuel a.contentType a.batchSize filter b
    if a.isContentTypes then
      if !a.yes && !a.typesAnswer then
        (pre ++ r.1 ++ [Event.promptTypes false], r.2, s)
      else
        let pre2 : List Event := if a.yes then [] else [Event.promptTypes a.typesAnswer]
        let r2 := deleteContentTypes pageFuel a.batchSize environment s
        (pre ++ r.1 ++ pre2 ++ r2.1, r.2, r2.2)
    else
      (pre ++ r.1, r.2, s)

/-- Event classifiers used by the theorems. -/
def isTickEntry : Event → Bool
  | Event.tickEntry => true
  | _ => false

def isVisitEntry : Event → Bool
  | Event.visitEntry _ => true
  | _ => false

def isDeleteEntry : Event → Bool
  | Event.deleteEntry _ => true
  | _ => false

def isUnpublishEntry : Event → Bool
  | Event.unpublishEntry _ => true
  | _ => false

/-- A mutating backend operation on an entry: its delete or its
unpublish. -/
def entryMutation : Event → Bool
  | Event.deleteEntry _ => true
  | Event.unpublishEntry _ => true
  | _ => false

/-- Events the entry-deletion engine can emit at all. -/
def entryEngineEvent : Event → Bool
  | Event.countEntries => true
  | Event.pageEntries _ _ => true
  | Event.visitEntry _ => true
  | Event.getEntryOk _ => true
  | Event.getEntryFail _ => true
  | Event.deleteEntry _ => true
  | Event.tickEntry => true
  | _ => false

def isPageEntries : Event → Bool
  | Event.pageEntries _ _ => true
  | _ => false

def isTickType : Event → Bool
  | Event.tickType => true
  | _ => false

def isPageTypes : Event → Bool
  | Event.pageTypes _ => true
  | _ => false

/-- Number of events of a trace matching a classifier. -/
def countEv (p : Event → Bool) (tr : List Event) : Nat := (tr.filter p).length

def countTick (tr : List Event) : Nat := countEv isTickEntry tr

def countVisit (tr : List Event) : Nat := countEv isVisitEntry tr

def countTickType (tr : List Event) : Nat := countEv isTickType tr

def countPageEntries (tr : List Event) : Nat := countEv isPageEntries tr

def countPageTypes (tr : List Event) : Nat := countEv isPageTypes tr

/-- The ids of the entry-delete calls of a trace, in order. -/
def deleteIds (tr : List Event) : List String :=
  tr.filterMap (fun ev => match ev with
    | Event.deleteEntry i => some i
    | _ => none)

/-- How often the procedure was entered for a given id. -/
def visitCount (tr : List Event) (x : String) : Nat :=
  (tr.filter (fun ev => ev == Event.visitEntry x)).length

/-- The ids the relation fields of an entry refer to. -/
def childIds (e : Entry) : List String :=
  (e.fields.seriesList.getD [] ++ e.fields.episodeList.getD []).map Link.id

/-- Whether some entry of the backend refers to `x` through a relation
field. -/
def mentionsChild (b : Backend) (x : String) : Bool :=
  b.entries.any (fun e => (childIds e).contains x)

/-- The default filter of main.ts line 74: accept everything. -/
def acceptAll : Entry → Bool := fun _ => true

/-- Fixtures: concrete backends and arguments used by the concrete-run
theorems below. -/
def entryIdsTwelve : List String :=
  ["e0", "e1", "e2", "e3", "e4", "e5", "e6", "e7", "e8", "e9", "ea", "eb"]

def backendTwelve : Backend := { entries := entryIdsTwelve.map (fun i => { id := i }) }

def backendSix : Backend :=
  { entries := ["f0", "f1", "f2", "f3", "f4", "f5"].map (fun i => { id := i }) }

def backendEmpty : Backend := { entries := [] }

def parentTwoKids : Entry :=
  { id := "p4", fields := { seriesList := some [{ id := "c1" }, { id := "c2" }] } }

def backendTwoKids : Backend :=
  { entries := [parentTwoKids, { id := "c1" }, { id := "c2" }] }

def backendIgnoreChild : Backend :=
  { entries := [{ id := "p", fields := { seriesList := some [{ id := "X" }] } },
                { id := "X" }] }

def backendOneDraft : Backend := { entries := [{ id := "p" }] }

def spaceNoTypes : SpaceState := { envTypes := fun _ => [] }

def spaceStaging : SpaceState :=
  { envTypes := fun n => if n == "staging" then [{ id := "T", published := true }] else [] }

def argsSecondPromptDeclined : MainArgs := { isContentTypes := true, typesAnswer := false }

def argsDeclinedFirst : MainArgs := { entriesAnswer := false }

def backendFailDelete : Backend :=
  { entries := [{ id := "d" }], failDelete := fun i => i == "d" }

def spaceFailUnpub : SpaceState :=
  { envTypes := fun _ => [], failUnpublishType := fun i => i == "T" }

def ctPublishedT : ContentType := { id := "T", published := true }

end CleanSpace

namespace CleanSpace

/-! Generic counting lemmas. -/

theorem countEv_nil (p : Event → Bool) : countEv p [] = 0 := rfl

theorem countEv_cons (p : Event → Bool) (ev : Event) (tr : List Event) :
    countEv p (ev :: tr) = (bif p ev then 1 else 0) + countEv p tr := by
  by_cases h : p ev <;> simp [countEv, List.filter_cons, h, Nat.add_comm]

theorem countEv_append (p : Event → Bool) (a b : List Event) :
    countEv p (a ++ b) = countEv p a + countEv p b := by
  simp [countEv, List.filter_append]

/-! C5 groundwork: the tick and visit counts of every run of the
procedure agree, over every exit path. -/

theorem processChildren_tick_eq_visit
    (recv : Backend → Entry → List Event × Bool × Backend)
    (h : ∀ b e, countTick (recv b e).1 = countVisit (recv b e).1) :
    ∀ b ls, countTick (processChildren recv b ls).1 = countVisit (processChildren recv b ls).1 := by
  intro b ls
  induction ls generalizing b with
  | nil => simp [processChildren, countTick, countVisit, countEv_nil]
  | cons l ls ih =>
    simp only [processChildren]
    cases hg : b.getEntry l.id with
    | none =>
      simp only [countTick, countVisit, countEv_cons, isTickEntry, isVisitEntry]
      exact congrArg _ (ih b)
    | some child =>
      have h1 := h b child
      have h2 := ih ((recv b child).2.2)
      simp only [countTick, countVisit] at h1 h2 ⊢
      simp [countEv_cons, countEv_append, isTickEntry, isVisitEntry]
      omega

/-- C5: every invocation of the unpublish-and-delete procedure ticks the
progress bar exactly once, on every exit path (deletion, skip, failed
delete, failed child fetch): across any run at any fuel the tick events
and the invocation (visit) events of the trace are equinumerous. -/
theorem c5_tick_once_per_visit (fuel : Nat) :
    ∀ b e, countTick (unpublishAndDeleteEntry fuel b e).1 =
      countVisit (unpublishAndDeleteEntry fuel b e).1 := by
  induction fuel with
  | zero =>
    intro b e
    simp [unpublishAndDeleteEntry, countTick, countVisit, countEv_nil]
  | succ fuel ih =>
    intro b e
    simp only [unpublishAndDeleteEntry]
    by_cases hc : (!e.isPublished && !e.isUpdated) = true
    · rw [if_pos hc]
      have hs := processChildren_tick_eq_visit (unpublishAndDeleteEntry fuel) ih
      have h1 := hs b (e.fields.seriesList.getD [])
      have h2 := hs (processChildren (unpublishAndDeleteEntry fuel) b
        (e.fields.seriesList.getD [])).2 (e.fields.episodeList.getD [])
      simp only [countTick, countVisit] at h1 h2 ⊢
      split <;>
        · simp [countEv_cons, countEv_append, countEv_nil, isTickEntry, isVisitEntry]
          omega
    · rw [if_neg hc]
      simp [countTick, countVisit, countEv_cons, countEv_nil, isTickEntry, isVisitEntry]

/-! Structural lemmas: the backend's entry list only ever shrinks, the
failure switches are never written, and the entry engine emits only its
own vocabulary of events. -/

theorem removeEntry_sublist (b : Backend) (i : String) :
    (b.removeEntry i).entries.Sublist b.entries :=
  List.filter_sublist _

theorem processChildren_sublist
    (recv : Backend → Entry → List Event × Bool × Backend)
    (h : ∀ b e, ((recv b e).2.2).entries.Sublist b.entries) :
    ∀ b ls, ((processChildren recv b ls).2).entries.Sublist b.entries := by
  intro b ls
  induction ls generalizing b with
  | nil => exact List.Sublist.refl _
  | cons l ls ih =>
    simp only [processChildren]
    cases hg : b.getEntry l.id with
    | none => exact ih b
    | some child => exact (ih _).trans (h b child)

theorem uADE_sublist (fuel : Nat) :
    ∀ b e, ((unpublishAndDeleteEntry fuel b e).2.2).entries.Sublist b.entries := by
  induction fuel with
  | zero => intro b e; exact List.Sublist.refl _
  | succ fuel ih =>
    intro b e
    simp only [unpublishAndDeleteEntry]
    by_cases hc : (!e.isPublished && !e.isUpdated) = true
    · rw [if_pos hc]
      have hs := processChildren_sublist (unpublishAndDeleteEntry fuel) ih
      split
      · exact (hs _ _).trans (hs _ _)
      · exact (removeEntry_sublist _ _).trans ((hs _ _).trans (hs _ _))
    · rw [if_neg hc]

theorem processPage_sublist (entryFuel : Nat) :
    ∀ b items, ((processPage entryFuel b items).2.2).entries.Sublist b.entries := by
  intro b items
  induction items generalizing b with
  | nil => exact List.Sublist.refl _
  | cons e es ih =>
    simp only [processPage]
    exact (ih _).trans (uADE_sublist entryFuel b e)

theorem removeEntry_failDelete (b : Backend) (i : String) :
    (b.removeEntry i).failDelete = b.failDelete := rfl

theorem processChildren_failDelete
    (recv : Backend → Entry → List Event × Bool × Backend)
    (h : ∀ b e, ((recv b e).2.2).failDelete = b.failDelete) :
    ∀ b ls, ((processChildren recv b ls).2).failDelete = b.failDelete := by
  intro b ls
  induction ls generalizing b with
  | nil => rfl
  | cons l ls ih =>
    simp only [processChildren]
    cases hg : b.getEntry l.id with
    | none => exact ih b
    | some child => exact (ih _).trans (h b child)

theorem uADE_failDelete (fuel : Nat) :
    ∀ b e, ((unpublishAndDeleteEntry fuel b e).2.2).failDelete = b.failDelete := by
  induction fuel with
  | zero => intro b e; rfl
  | succ fuel ih =>
    intro b e
    simp only [unpublishAndDeleteEntry]
    by_cases hc : (!e.isPublished && !e.isUpdated) = true
    · rw [if_pos hc]
      have hs := processChildren_failDelete (unpublishAndDeleteEntry fuel) ih
      split
      · exact (hs _ _).trans (hs _ _)
      · exact (hs _ _).trans (hs _ _)
    · rw [if_neg hc]

theorem processChildren_events
    (recv : Backend → Entry → List Event × Bool × Backend)
    (h : ∀ b e ev, ev ∈ (recv b e).1 → entryEngineEvent ev = true) :
    ∀ b ls ev, ev ∈ (processChildren recv b ls).1 → entryEngineEvent ev = true := by
  intro b ls
  induction ls generalizing b with
  | nil => intro ev hm; simp [processChildren] at hm
  | cons l ls ih =>
    simp only [processChildren]
    cases hg : b.getEntry l.id with
    | none =>
      intro ev hm
      rcases List.mem_cons.mp hm with rfl | hm
      · rfl
      · exact ih b ev hm
    | some child =>
      intro ev hm
      rcases List.mem_cons.mp hm with rfl | hm
      · rfl
      · rcases List.mem_append.mp hm with hm | hm
        · exact h b child ev hm
        · exact ih _ ev hm

theorem uADE_events (fuel : Nat) :
    ∀ b e ev, ev ∈ (unpublishAndDeleteEntry fuel b e).1 → entryEngineEvent ev = true := by
  induction fuel with
  | zero => intro b e ev hm; simp [unpublishAndDeleteEntry] at hm
  | succ fuel ih =>
    intro b e
    simp only [unpublishAndDeleteEntry]
    by_cases hc : (!e.isPublished && !e.isUpdated) = true
    · rw [if_pos hc]
      have hs := processChildren_events (unpublishAndDeleteEntry fuel) ih
      split <;>
        · intro ev hm
          rcases List.mem_cons.mp hm with rfl | hm
          · rfl
          · rcases List.mem_append.mp hm with hm | hm
            · rcases List.mem_append.mp hm with hm | hm
              · exact hs _ _ ev hm
              · exact hs _ _ ev hm
            · rcases List.mem_cons.mp hm with rfl | hm
              · rfl
              · rcases List.mem_cons.mp hm with rfl | hm
                · rfl
                · simp at hm
    · rw [if_neg hc]
      intro ev hm
      rcases List.mem_cons.mp hm with rfl | hm
      · rfl
      · rcases List.mem_cons.mp hm with rfl | hm
        · rfl
        · simp at hm

theorem processPage_events (entryFuel : Nat) :
    ∀ b items ev, ev ∈ (processPage entryFuel b items).1 → entryEngineEvent ev = true := by
  intro b items
  induction items generalizing b with
  | nil => intro ev hm; simp [processPage] at hm
  | cons e es ih =>
    simp only [processPage]
    intro ev hm
    rcases List.mem_append.mp hm with hm | hm
    · exact uADE_events entryFuel b e ev hm
    · exact ih _ ev hm

theorem deleteEntriesLoop_events (entryFuel : Nat) (ct : Option String) (batchSize : Nat)
    (filter : Entry → Bool) :
    ∀ pageFuel offset b ev,
      ev ∈ (deleteEntriesLoop entryFuel ct batchSize filter pageFuel offset b).1 →
      entryEngineEvent ev = true := by
  intro pageFuel
  induction pageFuel with
  | zero => intro offset b ev hm; simp [deleteEntriesLoop] at hm
  | succ pageFuel ih =>
    intro offset b ev
    simp only [deleteEntriesLoop]
    split <;>
      · intro hm
        rcases List.mem_cons.mp hm with rfl | hm
        · rfl
        · first
          | (rcases List.mem_append.mp hm with hm | hm
             · exact processPage_events entryFuel _ _ ev hm
             · exact ih _ _ ev hm)
          | exact processPage_events entryFuel _ _ ev hm

theorem deleteEntries_events (pageFuel entryFuel : Nat) (ct : Option String)
    (batchSize : Nat) (filter : Entry → Bool) (b : Backend) :
    ∀ ev, ev ∈ (deleteEntries pageFuel entryFuel ct batchSize filter b).1 →
      entryEngineEvent ev = true := by
  intro ev hm
  rcases List.mem_cons.mp hm with rfl | hm
  · rfl
  · exact deleteEntriesLoop_events entryFuel ct batchSize filter pageFuel 0 b ev hm

/-! C2 groundwork: where a delete call can come from.  A delete call for
id x issued anywhere inside the engine originates either from a page item
that passed the filter and has id x, or from a record that some entry of
the backend references through a relation field. -/

theorem mentionsChild_mono {b1 b2 : Backend} (h : b1.entries.Sublist b2.entries)
    {x : String} (hm : mentionsChild b1 x = true) : mentionsChild b2 x = true := by
  simp only [mentionsChild, List.any_eq_true] at hm ⊢
  obtain ⟨e, he, hx⟩ := hm
  exact ⟨e, h.subset he, hx⟩

theorem getEntry_mem {b : Backend} {i : String} {e : Entry}
    (h : b.getEntry i = some e) : e ∈ b.entries := by
  simp only [Backend.getEntry] at h
  split at h
  · cases h
  · exact List.mem_of_find?_eq_some h

theorem getEntry_id {b : Backend} {i : String} {e : Entry}
    (h : b.getEntry i = some e) : e.id = i := by
  simp only [Backend.getEntry] at h
  split at h
  · cases h
  · simpa using List.find?_some h

theorem mentionsChild_of_mem {b : Backend} {e : Entry} {x : String}
    (he : e ∈ b.entries) (hx : x ∈ childIds e) : mentionsChild b x = true := by
  simp only [mentionsChild, List.any_eq_true]
  exact ⟨e, he, by simpa using hx⟩

theorem processChildren_delete_origin
    (recv : Backend → Entry → List Event × Bool × Backend)
    (hsub : ∀ b e, ((recv b e).2.2).entries.Sublist b.entries)
    (horig : ∀ b e x, Event.deleteEntry x ∈ (recv b e).1 →
      x = e.id ∨ x ∈ childIds e ∨ mentionsChild b x = true) :
    ∀ b ls x, Event.deleteEntry x ∈ (processChildren recv b ls).1 →
      x ∈ ls.map Link.id ∨ mentionsChild b x = true := by
  intro b ls
  induction ls generalizing b with
  | nil => intro x hm; simp [processChildren] at hm
  | cons l ls ih =>
    simp only [processChildren]
    cases hg : b.getEntry l.id with
    | none =>
      intro x hm
      rcases List.mem_cons.mp hm with h1 | hm
      · simp at h1
      · rcases ih b x hm with h | h
        · exact Or.inl (List.mem_cons_of_mem _ h)
        · exact Or.inr h
    | some child =>
      intro x hm
      rcases List.mem_cons.mp hm with h1 | hm
      · simp at h1
      · rcases List.mem_append.mp hm with hm | hm
        · rcases horig b child x hm with h | h | h
          · left
            rw [List.map_cons, h.trans (getEntry_id hg)]
            exact List.mem_cons_self _ _
          · exact Or.inr (mentionsChild_of_mem (getEntry_mem hg) h)
          · exact Or.inr h
        · rcases ih ((recv b child).2.2) x hm with h | h
          · exact Or.inl (List.mem_cons_of_mem _ h)
          · exact Or.inr (mentionsChild_mono (hsub b child) h)

theorem childIds_of_series {e : Entry} {x : String}
    (h : x ∈ (e.fields.seriesList.getD []).map Link.id) : x ∈ childIds e := by
  simp only [childIds, List.map_append, List.mem_append]
  exact Or.inl h

theorem childIds_of_episode {e : Entry} {x : String}
    (h : x ∈ (e.fields.episodeList.getD []).map Link.id) : x ∈ childIds e := by
  simp only [childIds, List.map_append, List.mem_append]
  exact Or.inr h

theorem uADE_delete_origin (fuel : Nat) :
    ∀ b e x, Event.deleteEntry x ∈ (unpublishAndDeleteEntry fuel b e).1 →
      x = e.id ∨ x ∈ childIds e ∨ mentionsChild b x = true := by
  induction fuel with
  | zero => intro b e x hm; simp [unpublishAndDeleteEntry] at hm
  | succ fuel ih =>
    intro b e x
    simp only [unpublishAndDeleteEntry]
    by_cases hc : (!e.isPublished && !e.isUpdated) = true
    · rw [if_pos hc]
      have hpc := processChildren_delete_origin (unpublishAndDeleteEntry fuel)
        (uADE_sublist fuel) ih
      split <;>
        · intro hm
          rcases List.mem_cons.mp hm with h1 | hm
          · simp at h1
          · rcases List.mem_append.mp hm with hm | hm
            · rcases List.mem_append.mp hm with hm | hm
              · rcases hpc b _ x hm with h | h
                · exact Or.inr (Or.inl (childIds_of_series h))
                · exact Or.inr (Or.inr h)
              · rcases hpc _ _ x hm with h | h
                · exact Or.inr (Or.inl (childIds_of_episode h))
                · exact Or.inr (Or.inr (mentionsChild_mono
                    (processChildren_sublist _ (uADE_sublist fuel) b _) h))
            · rcases List.mem_cons.mp hm with h1 | hm
              · left
                injection h1
              · rcases List.mem_cons.mp hm with h1 | hm
                · simp at h1
                · simp at hm
    · rw [if_neg hc]
      intro hm
      rcases List.mem_cons.mp hm with h1 | hm
      · simp at h1
      · rcases List.mem_cons.mp hm with h1 | hm
        · simp at h1
        · simp at hm

theorem processPage_delete_origin (entryFuel : Nat) :
    ∀ b items x, Event.deleteEntry x ∈ (processPage entryFuel b items).1 →
      (∃ e, e ∈ items ∧ (x = e.id ∨ x ∈ childIds e)) ∨ mentionsChild b x = true := by
  intro b items
  induction items generalizing b with
  | nil => intro x hm; simp [processPage] at hm
  | cons e es ih =>
    simp only [processPage]
    intro x hm
    rcases List.mem_append.mp hm with hm | hm
    · rcases uADE_delete_origin entryFuel b e x hm with h | h | h
      · exact Or.inl ⟨e, List.mem_cons_self _ _, Or.inl h⟩
      · exact Or.inl ⟨e, List.mem_cons_self _ _, Or.inr h⟩
      · exact Or.inr h
    · rcases ih ((unpublishAndDeleteEntry entryFuel b e).2.2) x hm with ⟨f, hf, hcase⟩ | h
      · exact Or.inl ⟨f, List.mem_cons_of_mem _ hf, hcase⟩
      · exact Or.inr (mentionsChild_mono (uADE_sublist entryFuel b e) h)

theorem scopedEntries_subset {b : Backend} {ct : Option String} {e : Entry}
    (h : e ∈ b.scopedEntries ct) : e ∈ b.entries := by
  cases ct with
  | none => exact h
  | some c => exact (List.mem_filter.mp h).1

theorem page_item_mem {b : Backend} {ct : Option String} {offset batchSize : Nat}
    {filter : Entry → Bool} {e : Entry}
    (h : e ∈ ((b.getEntriesPage ct offset batchSize).2).filter filter) :
    e ∈ b.entries ∧ filter e = true := by
  rcases List.mem_filter.mp h with ⟨h1, h2⟩
  exact ⟨scopedEntries_subset (List.mem_of_mem_drop (List.mem_of_mem_take h1)), h2⟩

theorem deleteEntriesLoop_delete_origin (entryFuel : Nat) (ct : Option String)
    (batchSize : Nat) (filter : Entry → Bool) :
    ∀ pageFuel offset b x,
      Event.deleteEntry x ∈ (deleteEntriesLoop entryFuel ct batchSize filter pageFuel offset b).1 →
      (∃ e, e ∈ b.entries ∧ filter e = true ∧ x = e.id) ∨ mentionsChild b x = true := by
  intro pageFuel
  induction pageFuel with
  | zero => intro offset b x hm; simp [deleteEntriesLoop] at hm
  | succ pageFuel ih =>
    intro offset b x
    simp only [deleteEntriesLoop]
    have hpage : ∀ hm2 : Event.deleteEntry x ∈ (processPage entryFuel b
        (((b.getEntriesPage ct offset batchSize).2).filter filter)).1,
        (∃ e, e ∈ b.entries ∧ filter e = true ∧ x = e.id) ∨ mentionsChild b x = true := by
      intro hm2
      rcases processPage_delete_origin entryFuel b _ x hm2 with ⟨e, he, hcase⟩ | h
      · rcases page_item_mem he with ⟨hmem, hf⟩
        rcases hcase with h | h
        · exact Or.inl ⟨e, hmem, hf, h⟩
        · exact Or.inr (mentionsChild_of_mem hmem h)
      · exact Or.inr h
    split <;> intro hm
    · rcases List.mem_cons.mp hm with h1 | hm
      · simp at h1
      · rcases List.mem_append.mp hm with hm | hm
        · exact hpage hm
        · rcases ih _ _ x hm with ⟨e, hmem, hf, hx⟩ | h
          · exact Or.inl ⟨e, (processPage_sublist entryFuel b _).subset hmem, hf, hx⟩
          · exact Or.inr (mentionsChild_mono (processPage_sublist entryFuel b _) h)
    · rcases List.mem_cons.mp hm with h1 | hm
      · simp at h1
      · exact hpage hm

theorem deleteEntries_delete_origin (pageFuel entryFuel : Nat) (ct : Option String)
    (batchSize : Nat) (filter : Entry → Bool) (b : Backend) (x : String)
    (hm : Event.deleteEntry x ∈ (deleteEntries pageFuel entryFuel ct batchSize filter b).1) :
    (∃ e, e ∈ b.entries ∧ filter e = true ∧ x = e.id) ∨ mentionsChild b x = true := by
  rcases List.mem_cons.mp hm with h1 | hm
  · simp at h1
  · exact deleteEntriesLoop_delete_origin entryFuel ct batchSize filter pageFuel 0 b x hm

/-- A draft entry always has its own delete call issued (the source's
condition to delete is exactly being neither published nor updated). -/
theorem draft_delete_mem (fuel : Nat) (b : Backend) (e : Entry)
    (h : e.state = PubState.draft) :
    Event.deleteEntry e.id ∈ (unpublishAndDeleteEntry (fuel + 1) b e).1 := by
  have hc : (!e.isPublished && !e.isUpdated) = true := by
    simp only [Entry.isPublished, Entry.isUpdated, h]
    decide
  simp only [unpublishAndDeleteEntry]
  rw [if_pos hc]
  split <;> simp

/-- C1 (amended): the source's condition at main.ts line 151 skips every
published record, modified or not — the record gets one progress tick, no
delete call, and the backend is untouched; only draft records have their
delete issued. -/
theorem c1_publish_state_policy :
    (∀ fuel b e, e.state = PubState.publishedUnmodified ∨ e.state = PubState.publishedModified →
      unpublishAndDeleteEntry (fuel + 1) b e =
        ([Event.visitEntry e.id, Event.tickEntry], false, b)) ∧
    (∀ fuel b e, e.state = PubState.draft →
      Event.deleteEntry e.id ∈ (unpublishAndDeleteEntry (fuel + 1) b e).1) := by
  constructor
  · intro fuel b e h
    have hc : (!e.isPublished && !e.isUpdated) = false := by
      rcases h with h | h <;>
        · simp only [Entry.isPublished, Entry.isUpdated, h]
          decide
    simp only [unpublishAndDeleteEntry]
    rw [if_neg (by simp [hc])]
  · exact fun fuel b e h => draft_delete_mem fuel b e h

/-- C1 witness: a concrete published-and-unmodified record is skipped with
one tick, and a concrete draft record gets its delete call. -/
theorem c1_publish_state_policy_witness :
    unpublishAndDeleteEntry 1 backendEmpty
        { id := "u", state := PubState.publishedUnmodified } =
      ([Event.visitEntry "u", Event.tickEntry], false, backendEmpty) ∧
    Event.deleteEntry "d" ∈ (unpublishAndDeleteEntry 1 backendEmpty { id := "d" }).1 :=
  ⟨c1_publish_state_policy.1 0 backendEmpty
      { id := "u", state := PubState.publishedUnmodified } (Or.inl rfl),
   c1_publish_state_policy.2 0 backendEmpty { id := "d" } rfl⟩

/-- C1 counterexample: a published-and-modified record is NOT deleted (the
claim says every state other than published-and-unmodified is deleted):
its run issues no delete call and reports it as not deleted. -/
theorem c1_published_modified_not_deleted :
    (unpublishAndDeleteEntry 1 backendEmpty
        { id := "m", state := PubState.publishedModified }).1.contains
      (Event.deleteEntry "m") = false ∧
    (unpublishAndDeleteEntry 1 backendEmpty
        { id := "m", state := PubState.publishedModified }).2.1 = false := by
  decide

/-- C2 (amended): the ignore list only guards records as page items: an id
on the ignore list is never passed to delete PROVIDED no entry of the
backend references it through a relation field (recursive children bypass
the filter). -/
theorem c2_ignorelist_scope (pageFuel entryFuel : Nat) (ct : Option String)
    (batchSize : Nat) (L : List String) (b : Backend) (x : String)
    (hin : x ∈ L) (hnm : mentionsChild b x = false) :
    Event.deleteEntry x ∉
      (deleteEntries pageFuel entryFuel ct batchSize (mkFilter (some L) none) b).1 := by
  intro hm
  rcases deleteEntries_delete_origin pageFuel entryFuel ct batchSize _ b x hm with
    ⟨e, _, hf, hx⟩ | h
  · have hany : L.any (fun i => i == e.id) = true := by
      rw [List.any_eq_true]
      exact ⟨x, hin, by simp [hx]⟩
    simp [mkFilter, hany] at hf
  · exact absurd h (by simp [hnm])

/-- C2 witness: on a backend with no relation references to "X", an ignore
list containing "X" keeps "X" away from the delete operation. -/
theorem c2_ignorelist_scope_witness :
    "X" ∈ ["X"] ∧ mentionsChild backendOneDraft "X" = false ∧
    Event.deleteEntry "X" ∉
      (deleteEntries 2 1 none 5 (mkFilter (some ["X"]) none) backendOneDraft).1 :=
  ⟨by decide, by decide,
   c2_ignorelist_scope 2 1 none 5 ["X"] backendOneDraft "X" (by decide) (by decide)⟩

/-- C2 counterexample: id "X" is on the ignore list, yet the run deletes
it — "X" is reached as a recursive child of the draft parent "p", and the
recursive traversal never consults the filter. -/
theorem c2_child_bypasses_ignorelist :
    "X" ∈ ["X"] ∧
    Event.deleteEntry "X" ∈
      (deleteEntries 2 2 none 5 (mkFilter (some ["X"]) none) backendIgnoreChild).1 :=
  ⟨by decide, by decide⟩

/-- C3: the page loop advances the offset by batchSize minus the number of
records actually deleted in the page, and consequently a 12-record backend
scanned with batchSize 5 where every visited record is deleted is visited
exactly once per record, ending with an empty backend. -/
theorem c3_offset_correction :
    (∀ entryFuel ct batchSize filter pageFuel offset (b : Backend),
      (b.getEntriesPage ct offset batchSize).1 > batchSize →
      (let r := processPage entryFuel b
          (((b.getEntriesPage ct offset batchSize).2).filter filter)
       let rest := deleteEntriesLoop entryFuel ct batchSize filter pageFuel
          (offset + batchSize - ((r.2.1.filter (fun x => x)).length)) r.2.2
       deleteEntriesLoop entryFuel ct batchSize filter (pageFuel + 1) offset b =
          (Event.pageEntries offset batchSize :: r.1 ++ rest.1, rest.2))) ∧
    ((entryIdsTwelve.all fun i =>
        visitCount (deleteEntries 5 1 none 5 acceptAll backendTwelve).1 i == 1) = true ∧
      (deleteEntries 5 1 none 5 acceptAll backendTwelve).2.entries = []) := by
  constructor
  · intro entryFuel ct batchSize filter pageFuel offset b h
    simp only [deleteEntriesLoop]
    rw [if_pos h]
  · constructor
    · decide
    · decide

/-- C3 witness: a concrete page (6 entries, batchSize 5, so the reported
total exceeds the batch) advances by the drift-corrected offset. -/
theorem c3_offset_correction_witness :
    (backendSix.getEntriesPage none 0 5).1 > 5 ∧
    (let r := processPage 1 backendSix
        (((backendSix.getEntriesPage none 0 5).2).filter acceptAll)
     let rest := deleteEntriesLoop 1 none 5 acceptAll 0
        (0 + 5 - ((r.2.1.filter (fun x => x)).length)) r.2.2
     deleteEntriesLoop 1 none 5 acceptAll (0 + 1) 0 backendSix =
        (Event.pageEntries 0 5 :: r.1 ++ rest.1, rest.2)) :=
  ⟨by decide, c3_offset_correction.1 1 none 5 acceptAll 0 0 backendSix (by decide)⟩

/-- The delete calls of a deletable record's trace end with the record's
own id: the children's delete calls all come first. -/
theorem deleteIds_last (tr : List Event) (i : String) :
    (deleteIds (Event.visitEntry i :: tr ++
      [Event.deleteEntry i, Event.tickEntry])).getLast? = some i := by
  simp [deleteIds, List.filterMap_cons, List.filterMap_append, List.getLast?_concat]

/-- C4: for every deletable (draft) record, the record's own delete call
is the last delete call of its processing trace, so every child deleted
during relation traversal is deleted before the parent; concretely, a
draft parent referencing the two draft children c1 and c2 yields exactly
the three delete calls c1, c2, parent, in that order. -/
theorem c4_children_before_parent :
    (∀ fuel b e, e.state = PubState.draft →
      (deleteIds (unpublishAndDeleteEntry (fuel + 1) b e).1).getLast? = some e.id) ∧
    deleteIds (unpublishAndDeleteEntry 2 backendTwoKids parentTwoKids).1 =
      ["c1", "c2", "p4"] := by
  constructor
  · intro fuel b e h
    have hc : (!e.isPublished && !e.isUpdated) = true := by
      simp only [Entry.isPublished, Entry.isUpdated, h]
      decide
    simp only [unpublishAndDeleteEntry]
    rw [if_pos hc]
    split <;> exact deleteIds_last _ _
  · decide

/-- C4 witness: the general last-delete property applied to the concrete
two-children parent. -/
theorem c4_children_before_parent_witness :
    parentTwoKids.state = PubState.draft ∧
    (deleteIds (unpublishAndDeleteEntry (1 + 1) backendTwoKids parentTwoKids).1).getLast? =
      some parentTwoKids.id :=
  ⟨rfl, c4_children_before_parent.1 1 backendTwoKids parentTwoKids rfl⟩

/-- Every link of a relation field gets its fetch attempted, no matter
what happened for the links before it. -/
theorem processChildren_attempts
    (recv : Backend → Entry → List Event × Bool × Backend) :
    ∀ b ls l, l ∈ ls →
      Event.getEntryOk l.id ∈ (processChildren recv b ls).1 ∨
      Event.getEntryFail l.id ∈ (processChildren recv b ls).1 := by
  intro b ls
  induction ls generalizing b with
  | nil => intro l h; simp at h
  | cons l0 ls ih =>
    intro l hl
    simp only [processChildren]
    cases hg : b.getEntry l0.id with
    | none =>
      rcases List.mem_cons.mp hl with rfl | hl
      · exact Or.inr (List.mem_cons_self _ _)
      · rcases ih b l hl with h | h
        · exact Or.inl (List.mem_cons_of_mem _ h)
        · exact Or.inr (List.mem_cons_of_mem _ h)
    | some child =>
      rcases List.mem_cons.mp hl with rfl | hl
      · exact Or.inl (List.mem_cons_self _ _)
      · rcases ih ((recv b child).2.2) l hl with h | h
        · exact Or.inl (List.mem_cons_of_mem _ (List.mem_append_right _ h))
        · exact Or.inr (List.mem_cons_of_mem _ (List.mem_append_right _ h))

/-- C6: per-item failure isolation.  Every relation link is attempted
even when links before it failed; a draft record's own delete call is
issued regardless of what happened to its children; a record whose delete
call throws is reported as not deleted and the procedure still returns
normally; and a content type whose unpublish call throws still gets its
progress tick. -/
theorem c6_failure_isolation :
    (∀ fuel b ls l, l ∈ ls →
      Event.getEntryOk l.id ∈ (processChildren (unpublishAndDeleteEntry fuel) b ls).1 ∨
      Event.getEntryFail l.id ∈ (processChildren (unpublishAndDeleteEntry fuel) b ls).1) ∧
    (∀ fuel b e, e.state = PubState.draft →
      Event.deleteEntry e.id ∈ (unpublishAndDeleteEntry (fuel + 1) b e).1) ∧
    (∀ fuel b e, e.state = PubState.draft → b.failDelete e.id = true →
      (unpublishAndDeleteEntry (fuel + 1) b e).2.1 = false) ∧
    (∀ s ct, s.failUnpublishType ct.id = true →
      countTickType (unpublishAndDeleteContentType s ct).1 = 1) := by
  refine ⟨fun fuel => processChildren_attempts (unpublishAndDeleteEntry fuel),
    fun fuel b e h => draft_delete_mem fuel b e h, ?_, ?_⟩
  · intro fuel b e h hf
    have hc : (!e.isPublished && !e.isUpdated) = true := by
      simp only [Entry.isPublished, Entry.isUpdated, h]
      decide
    simp only [unpublishAndDeleteEntry]
    rw [if_pos hc]
    have hfd : (processChildren (unpublishAndDeleteEntry fuel)
        (processChildren (unpublishAndDeleteEntry fuel) b
          (e.fields.seriesList.getD [])).2
        (e.fields.episodeList.getD [])).2.failDelete e.id = true := by
      rw [processChildren_failDelete (unpublishAndDeleteEntry fuel) (uADE_failDelete fuel),
        processChildren_failDelete (unpublishAndDeleteEntry fuel) (uADE_failDelete fuel)]
      exact hf
    rw [if_pos hfd]
  · intro s ct h
    simp only [unpublishAndDeleteContentType]
    repeat
      first
        | rfl
        | split

/-- C6 witness: the isolation properties at concrete inputs — a link list
with one link, a draft record whose delete call throws, and a published
content type whose unpublish call throws. -/
theorem c6_failure_isolation_witness :
    (Event.getEntryOk "c1" ∈
        (processChildren (unpublishAndDeleteEntry 1) backendTwoKids [{ id := "c1" }]).1 ∨
      Event.getEntryFail "c1" ∈
        (processChildren (unpublishAndDeleteEntry 1) backendTwoKids [{ id := "c1" }]).1) ∧
    Event.deleteEntry "d" ∈
      (unpublishAndDeleteEntry (0 + 1) backendFailDelete { id := "d" }).1 ∧
    (unpublishAndDeleteEntry (0 + 1) backendFailDelete { id := "d" }).2.1 = false ∧
    countTickType (unpublishAndDeleteContentType spaceFailUnpub ctPublishedT).1 = 1 :=
  ⟨c6_failure_isolation.1 1 backendTwoKids [{ id := "c1" }] { id := "c1" } (by decide),
   c6_failure_isolation.2.1 0 backendFailDelete { id := "d" } rfl,
   c6_failure_isolation.2.2.1 0 backendFailDelete { id := "d" } rfl (by decide),
   c6_failure_isolation.2.2.2 spaceFailUnpub ctPublishedT (by decide)⟩

/-- The entry engine never emits a content-type event. -/
theorem deleteEntries_no_type_events (pageFuel entryFuel : Nat) (ct : Option String)
    (batchSize : Nat) (filter : Entry → Bool) (b : Backend) (x : String) :
    Event.deleteType x ∉ (deleteEntries pageFuel entryFuel ct batchSize filter b).1 ∧
    Event.unpublishType x ∉ (deleteEntries pageFuel entryFuel ct batchSize filter b).1 := by
  constructor <;>
    · intro hm
      have h := deleteEntries_events pageFuel entryFuel ct batchSize filter b _ hm
      simp [entryEngineEvent] at h

/-- C7 (amended): a declined entries prompt returns before any call at
all; a declined content-types prompt still lets the already-performed
entry deletions stand but prevents every content-type unpublish or delete;
and whenever prompting is active the entries prompt is the very first
event of the run. -/
theorem c7_confirmation_gate :
    (∀ pageFuel entryFuel a env (b : Backend) (s : SpaceState),
      a.yes = false → a.entriesAnswer = false →
      mainRun pageFuel entryFuel a env b s = ([Event.promptEntries false], b, s)) ∧
    (∀ pageFuel entryFuel a env (b : Backend) (s : SpaceState) x,
      a.yes = false → a.typesAnswer = false →
      Event.deleteType x ∉ (mainRun pageFuel entryFuel a env b s).1 ∧
      Event.unpublishType x ∉ (mainRun pageFuel entryFuel a env b s).1) ∧
    (∀ pageFuel entryFuel a env (b : Backend) (s : SpaceState),
      a.yes = false →
      (mainRun pageFuel entryFuel a env b s).1.head? =
        some (Event.promptEntries a.entriesAnswer)) := by
  refine ⟨?_, ?_, ?_⟩
  · intro pageFuel entryFuel a env b s hy he
    simp [mainRun, hy, he]
  · intro pageFuel entryFuel a env b s x hy ht
    cases hb : a.entriesAnswer with
    | false => constructor <;> simp [mainRun, hy, hb]
    | true =>
      have hno := deleteEntries_no_type_events pageFuel entryFuel a.contentType a.batchSize
        (mkFilter a.ignoreIds a.removeIds) b x
      cases hct : a.isContentTypes <;>
        · constructor <;>
            · intro hm
              simp [mainRun, hy, hb, hct, ht] at hm
              first
                | exact hno.1 hm
                | exact hno.2 hm
  · intro pageFuel entryFuel a env b s hy
    cases hb : a.entriesAnswer with
    | false => simp [mainRun, hy, hb]
    | true =>
      cases hct : a.isContentTypes <;> cases hta : a.typesAnswer <;>
        simp [mainRun, hy, hb, hct, hta]

/-- C7 witness: the three guard properties at concrete runs — a declined
first prompt, and a run whose second prompt is declined. -/
theorem c7_confirmation_gate_witness :
    mainRun 1 1 argsDeclinedFirst "master" backendOneDraft spaceNoTypes =
      ([Event.promptEntries false], backendOneDraft, spaceNoTypes) ∧
    (Event.deleteType "T" ∉
        (mainRun 3 1 argsSecondPromptDeclined "master" backendOneDraft spaceNoTypes).1 ∧
      Event.unpublishType "T" ∉
        (mainRun 3 1 argsSecondPromptDeclined "master" backendOneDraft spaceNoTypes).1) ∧
    (mainRun 3 1 argsSecondPromptDeclined "master" backendOneDraft spaceNoTypes).1.head? =
      some (Event.promptEntries argsSecondPromptDeclined.entriesAnswer) :=
  ⟨c7_confirmation_gate.1 1 1 argsDeclinedFirst "master" backendOneDraft spaceNoTypes rfl rfl,
   c7_confirmation_gate.2.1 3 1 argsSecondPromptDeclined "master" backendOneDraft
     spaceNoTypes "T" rfl rfl,
   c7_confirmation_gate.2.2 3 1 argsSecondPromptDeclined "master" backendOneDraft
     spaceNoTypes rfl⟩

/-- C7 counterexample: with the entries prompt accepted and the
content-types prompt declined, the run returns early at the second prompt
— but an entry deletion has already been performed, so "returns early with
no deletion performed" is false for that declined prompt. -/
theorem c7_second_prompt_after_deletion :
    Event.promptTypes false ∈
      (mainRun 3 1 argsSecondPromptDeclined "master" backendOneDraft spaceNoTypes).1 ∧
    Event.deleteEntry "p" ∈
      (mainRun 3 1 argsSecondPromptDeclined "master" backendOneDraft spaceNoTypes).1 :=
  ⟨by decide, by decide⟩

/-- C8: against a scope the backend reports as empty, the engine performs
zero delete calls and stops after the single mandatory do/while iteration
(the reported total 0 is never greater than batchSize), leaving the
backend untouched: the whole run is the metadata count plus one page
listing. -/
theorem c8_empty_scope_idempotence (pageFuel entryFuel : Nat) (ct : Option String)
    (batchSize : Nat) (filter : Entry → Bool) (b : Backend)
    (h : (b.scopedEntries ct).length = 0) :
    deleteEntries (pageFuel + 1) entryFuel ct batchSize filter b =
      ([Event.countEntries, Event.pageEntries 0 batchSize], b) := by
  have hnil : b.scopedEntries ct = [] := List.length_eq_zero.mp h
  simp [deleteEntries, deleteEntriesLoop, Backend.getEntriesPage, hnil, processPage]

/-- C8 witness: the empty-scope run evaluated on a concrete empty
backend. -/
theorem c8_empty_scope_idempotence_witness :
    (backendEmpty.scopedEntries none).length = 0 ∧
    deleteEntries (2 + 1) 1 none 5 acceptAll backendEmpty =
      ([Event.countEntries, Event.pageEntries 0 5], backendEmpty) :=
  ⟨rfl, c8_empty_scope_idempotence 2 1 none 5 acceptAll backendEmpty rfl⟩

/-- Processing a page of content types emits no page-listing events. -/
theorem processTypePage_no_page_events :
    ∀ s cts, countPageTypes (processTypePage s cts).1 = 0 := by
  intro s cts
  induction cts generalizing s with
  | nil => rfl
  | cons ct cts ih =>
    simp only [processTypePage]
    have h1 : countEv isPageTypes (unpublishAndDeleteContentType s ct).1 = 0 := by
      simp only [unpublishAndDeleteContentType]
      split
      · split
        · rfl
        · split <;> rfl
      · split <;> rfl
    simp only [countPageTypes] at ih ⊢
    rw [countEv_append, h1, ih]

/-- C9 (amended): the schema engine's metadata count comes from the
selected environment but its pages come from the space-level (master)
listing with no offset — an empty master listing means nothing is touched
even if the selected environment has schemas; per item it unpublishes iff
published then deletes, ticks once regardless of outcome, and the loop
stops after one iteration once the space-level total is at most
batchSize. -/
theorem c9_schema_engine :
    (∀ pageFuel batchSize env (s : SpaceState), s.envTypes "master" = [] →
      deleteContentTypes (pageFuel + 1) batchSize env s =
        ([Event.countTypes env, Event.pageTypes batchSize], s)) ∧
    (∀ (s : SpaceState) ct, s.failUnpublishType ct.id = false →
      s.failDeleteType ct.id = false →
      (unpublishAndDeleteContentType s ct).1 =
        (if ct.published then [Event.unpublishType ct.id] else []) ++
          [Event.deleteType ct.id, Event.tickType]) ∧
    (∀ (s : SpaceState) ct, countTickType (unpublishAndDeleteContentType s ct).1 = 1) ∧
    (∀ pageFuel batchSize env (s : SpaceState),
      (s.envTypes "master").length ≤ batchSize →
      countPageTypes (deleteContentTypes (pageFuel + 1) batchSize env s).1 = 1) := by
  refine ⟨?_, ?_, ?_, ?_⟩
  · intro pageFuel batchSize env s h
    simp [deleteContentTypes, deleteTypesLoop, SpaceState.spacePage, h, processTypePage]
  · intro s ct h1 h2
    cases hp : ct.published with
    | false => simp [unpublishAndDeleteContentType, hp, h2]
    | true => simp [unpublishAndDeleteContentType, hp, h1, h2, SpaceState.unpublishTypeAt]
  · intro s ct
    simp only [unpublishAndDeleteContentType]
    split
    · split
      · rfl
      · split <;> rfl
    · split <;> rfl
  · intro pageFuel batchSize env s h
    have hng : ¬ ((s.spacePage batchSize).1 > batchSize) := by
      simp only [SpaceState.spacePage]
      omega
    simp only [deleteContentTypes, deleteTypesLoop]
    rw [if_neg hng]
    have h0 := processTypePage_no_page_events s ((s.envTypes "master").take batchSize)
    simp only [countPageTypes, SpaceState.spacePage] at h0 ⊢
    simp [countEv_cons, isPageTypes, h0]

/-- C9 witness: the amended schema-engine properties at concrete inputs
(a space whose master listing is empty while "staging" holds a published
schema, and a published type processed without failures). -/
theorem c9_schema_engine_witness :
    spaceStaging.envTypes "master" = [] ∧
    deleteContentTypes (2 + 1) 5 "staging" spaceStaging =
      ([Event.countTypes "staging", Event.pageTypes 5], spaceStaging) ∧
    (unpublishAndDeleteContentType spaceNoTypes ctPublishedT).1 =
      (if ctPublishedT.published then [Event.unpublishType ctPublishedT.id] else []) ++
        [Event.deleteType ctPublishedT.id, Event.tickType] ∧
    countPageTypes (deleteContentTypes (2 + 1) 5 "staging" spaceStaging).1 = 1 :=
  ⟨by decide,
   c9_schema_engine.1 2 5 "staging" spaceStaging (by decide),
   c9_schema_engine.2.1 spaceNoTypes ctPublishedT (by decide) (by decide),
   c9_schema_engine.2.2.2 2 5 "staging" spaceStaging (by decide)⟩

/-- C9 counterexample: the claim says the engine pages through the
schemas of the SELECTED environment; with the selected environment
"staging" holding one published schema "T" while master holds none, the
run issues no delete call for "T" and leaves "staging" unchanged. -/
theorem c9_selected_env_untouched :
    (deleteContentTypes 3 5 "staging" spaceStaging).1.contains
      (Event.deleteType "T") = false ∧
    (deleteContentTypes 3 5 "staging" spaceStaging).2.envTypes "staging" =
      [{ id := "T", published := true }] := by
  constructor
  · decide
  · decide

/-- C10: the entry engine never issues an unpublish call on any entry; the
only mutating entry operations in any of its traces are delete calls. -/
theorem c10_no_entry_unpublish (pageFuel entryFuel : Nat) (ct : Option String)
    (batchSize : Nat) (filter : Entry → Bool) (b : Backend) :
    ((deleteEntries pageFuel entryFuel ct batchSize filter b).1.all
      (fun ev => !isUnpublishEntry ev)) = true ∧
    ((deleteEntries pageFuel entryFuel ct batchSize filter b).1.all
      (fun ev => !entryMutation ev || isDeleteEntry ev)) = true := by
  constructor <;>
    · rw [List.all_eq_true]
      intro ev hm
      have h := deleteEntries_events pageFuel entryFuel ct batchSize filter b ev hm
      cases ev <;> simp_all [entryEngineEvent, isUnpublishEntry, entryMutation, isDeleteEntry]

end CleanSpace
